import Mathlib

/-!
# Verification of the jaque HTTP application toolkit

Shallow embedding of the parts of `jaque` (Q-JSGI web application tools)
that the frozen claims concern: the byte-range parser
(`interpretFirstRange`), the file responder (`file`), the file-tree
router (`FileTree`), the routing primitives (`Branch`, `FirstFound`),
the `Error` decorator, and the status-response utilities
(`responseForStatus` from `lib/jaque/util.js`).

Modelling conventions:
* JS strings are modelled as `List Char` (`Str`).
* JS numbers arising in the range code are integers, `NaN`, or
  `undefined`.  In every operation this code performs (subtraction,
  `<`/`>`/`<=` comparisons, stringification after arithmetic), `NaN`
  and `undefined` behave identically, so both are modelled as `none`
  of `JSNum := Option Int` (comparisons with `none` are `false`,
  arithmetic propagates `none`, and the only stringified `none`
  values have passed through arithmetic, hence print as `"NaN"`).
* Promises are collapsed: an app is a function from requests to
  responses; fallible asynchronous computations return `Except`.
* The filesystem / URL / MIME collaborators (`q-fs`, `url`, `mime`)
  are external services, modelled as a `Services` record of abstract
  functions.
-/

namespace Jaque

/-- JS strings, modelled as lists of characters. -/
abbrev Str := List Char

/-- JS numbers in the range-handling code: `some i` is an integer,
`none` is `NaN`/`undefined` (behaviorally identical in every operation
this code performs on them; see the module docstring). -/
abbrev JSNum := Option Int

/-- JS subtraction: `NaN`/`undefined` operands yield `NaN`. -/
def jsub : JSNum → JSNum → JSNum
  | some a, some b => some (a - b)
  | _, _ => none

/-- JS `<=` comparison: any comparison involving `NaN`/`undefined` is false. -/
def jleB : JSNum → JSNum → Bool
  | some a, some b => decide (a ≤ b)
  | _, _ => false

/-- JS `>` comparison: any comparison involving `NaN`/`undefined` is false. -/
def jgtB : JSNum → JSNum → Bool
  | some a, some b => decide (a > b)
  | _, _ => false

/-- Decimal digits of a natural number, as characters. -/
def natToChars (n : Nat) : Str := Nat.toDigits 10 n

/-- JS stringification of an integer. -/
def intToChars (i : Int) : Str :=
  if i < 0 then '-' :: natToChars i.natAbs else natToChars i.natAbs

/-- JS stringification of a range-code number.  In `file` the only
`none` values that reach a string have passed through subtraction, so
they print as `"NaN"`. -/
def jnumToChars : JSNum → Str
  | none => "NaN".data
  | some i => intToChars i

/-- First-match lookup in a JS-object-like association list
(request/response headers, path maps). -/
def lookupAssoc {α : Type} : List (Str × α) → Str → Option α
  | [], _ => none
  | (k, v) :: rest, key => if k = key then some v else lookupAssoc rest key

/-- A response body: either the stream `FS.open(path, range)` or a
list of in-memory string chunks. -/
inductive Body where
  | openFile (path : Str) (range : Option (JSNum × JSNum))
  | chunks (strs : List Str)
deriving DecidableEq, Repr

/-- A Q-JSGI response: status, lower-case headers, optional body
(the `responseForStatus` helper omits the `body` property for
bodiless statuses). -/
structure Response where
  status : Nat
  headers : List (Str × Str)
  body : Option Body
deriving DecidableEq, Repr

/-- A Q-JSGI request: the fields this development needs.  `permanent`
is the flag set by the `Permanent` middleware (a truthy function in
JS, a Bool here). -/
structure Request where
  method : Str
  url : Str
  path : Str
  scriptName : Str
  pathInfo : Str
  headers : List (Str × Str)
  permanent : Bool
deriving DecidableEq, Repr

/-- An app: accepts a request, returns a response (promises collapsed). -/
abbrev App := Request → Response

/-! ## `lib/jaque/util.js` -/

/-- `HTTP_STATUS_CODES`: standard descriptions of the status codes
(the table in `util.js`). -/
def statusMessage : Nat → Option String
  | 100 => some "Continue"
  | 101 => some "Switching Protocols"
  | 102 => some "Processing"
  | 200 => some "OK"
  | 201 => some "Created"
  | 202 => some "Accepted"
  | 203 => some "Non-Authoritative Information"
  | 204 => some "No Content"
  | 205 => some "Reset Content"
  | 206 => some "Partial Content"
  | 207 => some "Multi-Status"
  | 300 => some "Multiple Choices"
  | 301 => some "Moved Permanently"
  | 302 => some "Found"
  | 303 => some "See Other"
  | 304 => some "Not Modified"
  | 305 => some "Use Proxy"
  | 307 => some "Temporary Redirect"
  | 400 => some "Bad Request"
  | 401 => some "Unauthorized"
  | 402 => some "Payment Required"
  | 403 => some "Forbidden"
  | 404 => some "Not Found"
  | 405 => some "Method Not Allowed"
  | 406 => some "Not Acceptable"
  | 407 => some "Proxy Authentication Required"
  | 408 => some "Request Timeout"
  | 409 => some "Conflict"
  | 410 => some "Gone"
  | 411 => some "Length Required"
  | 412 => some "Precondition Failed"
  | 413 => some "Request Entity Too Large"
  | 414 => some "Request-URI Too Large"
  | 415 => some "Unsupported Media Type"
  | 416 => some "Request Range Not Satisfiable"
  | 417 => some "Expectation Failed"
  | 422 => some "Unprocessable Entity"
  | 423 => some "Locked"
  | 424 => some "Failed Dependency"
  | 500 => some "Internal Server Error"
  | 501 => some "Not Implemented"
  | 502 => some "Bad Gateway"
  | 503 => some "Service Unavailable"
  | 504 => some "Gateway Timeout"
  | 505 => some "HTTP Version Not Supported"
  | 507 => some "Insufficient Storage"
  | _ => none

/-- `STATUS_WITH_NO_ENTITY_BODY`: statuses whose responses must not
carry a message body (1xx, 204, 304). -/
def statusWithNoEntityBody (status : Nat) : Bool :=
  (100 ≤ status && status ≤ 199) || status == 204 || status == 304

/-- `responseForStatus(status, optMessage)`: a plain-text response for
the status code; for bodiless statuses the body and the
content-length/content-type headers are omitted.  The source throws
on a status absent from the table; every call site in this
development uses a known code, and that case returns an inert
response here. -/
def responseForStatus (status : Nat) (optMessage : Option Str) : Response :=
  match statusMessage status with
  | none => { status := status, headers := [], body := none }
  | some m =>
    let message : Str := m.data ++ (match optMessage with
      | some extra => (": ").data ++ extra
      | none => [])
    let content : Str := message ++ "\r\n".data
    if statusWithNoEntityBody status then
      { status := status, headers := [], body := none }
    else
      { status := status,
        headers := [("content-length".data, natToChars content.length),
                    ("content-type".data, "text/plain".data)],
        body := some (.chunks [content]) }

/-- `appForStatus(status)`: an app answering every request with
`responseForStatus(status, method + " " + path)`. -/
def appForStatus (status : Nat) : App :=
  fun request =>
    responseForStatus status (some (request.method ++ (" ").data ++ request.path))

/-- `exports.notFound`, the default 404 app. -/
def notFoundApp : App := appForStatus 404

/-! ## The Range header parser (`interpretRange` / `interpretFirstRange`)

The source validates the header with
`^\s*bytes\s*=\s*(\d*\s*-\s*\d*\s*(?:,\s*\d*\s*-\s*\d*\s*)*)$`, splits
the captured group on `\s*,\s*`, and matches each piece against
`^\s*(\d*)\s*-\s*(\d*)\s*$`.  Since the character classes `\d`, `\s`,
`,`, `-` are pairwise disjoint, the regexes are deterministic, and the
combination is equivalent to: strip `\s* bytes \s* = \s*`, split the
remainder at every `,`, and require every piece to be of the form
`\s* digits? \s* - \s* digits? \s*`.  `parseRangesHeader` implements
exactly that; each parsed spec records the two optional digit groups
(`none` = the group matched the empty string). -/

/-- JS `\s` on the characters that occur in HTTP header values. -/
def isSp (c : Char) : Bool :=
  c = ' ' || c = '\t' || c = '\n' || c = '\r' || c = '\x0b' || c = '\x0c'

/-- Numeric value of a JS digit-group match: `none` when the group
matched the empty string, otherwise the decimal value (`+match[i]`). -/
def digitsVal (ds : Str) : Option Nat :=
  match ds with
  | [] => none
  | _ => some (ds.foldl (fun a c => a * 10 + (c.toNat - '0'.toNat)) 0)

/-- One byte-range spec as captured by `rangeExpression`: the optional
first and second digit groups. -/
abbrev RangeSpec := Option Nat × Option Nat

/-- Match one comma-separated piece against
`^\s*(\d*)\s*-\s*(\d*)\s*$` (the source's `rangeExpression`). -/
def parsePiece (cs : Str) : Option RangeSpec :=
  let cs1 := cs.dropWhile isSp
  let ds1 := cs1.takeWhile Char.isDigit
  let cs2 := (cs1.dropWhile Char.isDigit).dropWhile isSp
  match cs2 with
  | '-' :: cs3 =>
    let cs4 := cs3.dropWhile isSp
    let ds2 := cs4.takeWhile Char.isDigit
    let cs5 := (cs4.dropWhile Char.isDigit).dropWhile isSp
    if cs5 = [] then some (digitsVal ds1, digitsVal ds2) else none
  | _ => none

/-- Strip `^\s*bytes\s*=\s*` from the header text (the fixed part of
`rangesExpression`); `none` if it is missing. -/
def eatBytesEq (cs : Str) : Option Str :=
  match cs.dropWhile isSp with
  | 'b' :: 'y' :: 't' :: 'e' :: 's' :: r =>
    match r.dropWhile isSp with
    | '=' :: r2 => some (r2.dropWhile isSp)
    | _ => none
  | _ => none

/-- Split a character list at every comma (JS `split(/\s*,\s*/)`; the
whitespace around commas is consumed by the per-piece `\s*` of
`parsePiece` instead). -/
def splitComma : Str → List Str
  | [] => [[]]
  | c :: rest =>
    if c = ',' then [] :: splitComma rest
    else
      match splitComma rest with
      | [] => [[c]]
      | p :: ps => (c :: p) :: ps

/-- The combined effect of `rangesExpression` + `split` +
per-piece `rangeExpression`: `none` when the header is invalid,
otherwise the list of specs (always nonempty). -/
def parseRangesHeader (text : Str) : Option (List RangeSpec) :=
  match eatBytesEq text with
  | none => none
  | some rest => (splitComma rest).mapM parsePiece

/-- `interpretRange(text, size)` after the regex match: `undefined`
when both digit groups are empty, else the `{begin, end}` pair, where
`""-N` gives `begin = size - N`, `M-""` gives `end = size`, and `M-N`
gives `end = N + 1`.  `size` is a `JSNum` because `exports.file`
calls the parser without a size argument (`size = undefined`). -/
def interpretRange (spec : RangeSpec) (size : JSNum) : Option (JSNum × JSNum) :=
  match spec with
  | (none, none) => none
  | (none, some n2) => some (jsub size (some (n2 : Int)), size)
  | (some n1, none) => some (some (n1 : Int), size)
  | (some n1, some n2) => some (some (n1 : Int), some ((n2 : Int) + 1))

/-- The merge loop of `interpretFirstRange`: starting from the
accumulated `{begin, end}`, walk the spec list (the source's loop
runs from index 0, so the first spec is re-examined against the
accumulator); stop at the first unparsable spec or at the first spec
whose begin is after the accumulated end, else replace the
accumulated end by the spec's end. -/
def mergeFrom (size : JSNum) : List RangeSpec → JSNum × JSNum → JSNum × JSNum
  | [], r => r
  | t :: ts, r =>
    match interpretRange t size with
    | none => r
    | some nxt => if jleB nxt.1 r.2 then mergeFrom size ts (r.1, nxt.2) else r

/-- `interpretFirstRange(text, size)`: parse the header, interpret the
first spec, then run the merge loop over the whole spec list
(including the first spec, as in the source). -/
def interpretFirstRange (text : Str) (size : JSNum) : Option (JSNum × JSNum) :=
  match parseRangesHeader text with
  | none => none
  | some [] => none
  | some (t0 :: rest) =>
    match interpretRange t0 size with
    | none => none
    | some r0 => some (mergeFrom size (t0 :: rest) r0)

/-! ## Reference semantics of §4.1 (for the refinement claim C2)

A second definition following the specification's words, to be
compared with `interpretFirstRange` above: `a-b` denotes `[a, b+1)`,
`a-` denotes `[a, size)`, `-N` denotes `[size-N, size)`; comma
separated specs are merged left-to-right starting from the first
spec's range, extending the merged end whenever a subsequent spec's
begin is at or before the current merged end, and stopping at the
first gap (or at the first spec that is not a valid range), so that
only the first continuous run is returned.  An invalid header yields
`undefined`.  Sizes and bounds are exact integers here (the spec's
reference semantics has no `undefined` values). -/

/-- §4.1 denotation of a single spec over a resource of known size:
`start-end ↦ [start, end+1)`, `start- ↦ [start, size)`,
`-suffixLength ↦ [size-suffixLength, size)`; a spec with neither
number is not a valid range. -/
def specRangeDenote (spec : RangeSpec) (size : Nat) : Option (Int × Int) :=
  match spec with
  | (none, none) => none
  | (none, some n) => some ((size : Int) - n, (size : Int))
  | (some a, none) => some ((a : Int), (size : Int))
  | (some a, some b) => some ((a : Int), (b : Int) + 1)

/-- §4.1 merge of the specs after the first: if the next spec's begin
falls at or before the current merged end, extend the merged end to
that spec's end, otherwise stop; also stop at the first invalid
spec. -/
def specMergeRest (size : Nat) : List RangeSpec → Int × Int → Int × Int
  | [], r => r
  | t :: ts, r =>
    match specRangeDenote t size with
    | none => r
    | some nxt => if nxt.1 ≤ r.2 then specMergeRest size ts (r.1, nxt.2) else r

/-- The reference semantics of §4.1 as the claim states it: parse the
header (an invalid header yields `undefined`), denote the first spec,
and merge the subsequent specs left-to-right. -/
def specFirstRange (text : Str) (size : Nat) : Option (Int × Int) :=
  match parseRangesHeader text with
  | none => none
  | some [] => none
  | some (t0 :: rest) =>
    match specRangeDenote t0 size with
    | none => none
    | some r0 => some (specMergeRest size rest r0)

/-- The amended reference semantics: as `specFirstRange`, except that
(as in the source, whose merge loop re-examines the first spec
against itself) no merging at all happens when the first spec's begin
lies after its own end. -/
def specFirstRangeAmended (text : Str) (size : Nat) : Option (Int × Int) :=
  match parseRangesHeader text with
  | none => none
  | some [] => none
  | some (t0 :: rest) =>
    match specRangeDenote t0 size with
    | none => none
    | some r0 =>
      if r0.1 ≤ r0.2 then some (specMergeRest size rest r0) else some r0

/-- Lift an exact reference range into the JS-number representation
used by `interpretFirstRange`. -/
def liftRange (r : Option (Int × Int)) : Option (JSNum × JSNum) :=
  r.map (fun p => (some p.1, some p.2))

/-- The ByteRange invariant of §3: `0 <= begin < end <= size`. -/
def byteRangeInv (b e : Int) (size : Nat) : Prop :=
  0 ≤ b ∧ b < e ∧ e ≤ (size : Int)

instance (b e : Int) (size : Nat) : Decidable (byteRangeInv b e size) :=
  inferInstanceAs (Decidable (0 ≤ b ∧ b < e ∧ e ≤ (size : Int)))

/-! ## The file responder (`exports.file`) and its services -/

/-- What `stat.isFile()` / `stat.isDirectory()` report. -/
inductive FileKind where
  | file
  | directory
  | other
deriving DecidableEq, Repr

/-- The stat record: inode identity, size in bytes, modification time
(already converted to milliseconds, as `Date.parse(stat.mtime)`
does). -/
structure FileStat where
  kind : FileKind
  ino : Nat
  size : Nat
  mtime : Int
deriving DecidableEq, Repr

/-- The external collaborators (`q-fs`, `url`, `mime`): filesystem
canonicalization, joining, containment, stat; URL resolution; MIME
lookup.  Fallible operations return `Except` (a rejection reason). -/
structure Services where
  canonical : Str → Except Str Str
  join : Str → Str → Str
  contains : Str → Str → Bool
  stat : Str → Except Str FileStat
  relativeFromFile : Str → Str → Str
  resolve : Str → Str → Str
  mimeLookup : Str → Str

/-- `exports.etag(stat)`: `[ino, size, Date.parse(mtime)].join("-")`. -/
def etagOf (stat : FileStat) : Str :=
  natToChars stat.ino ++ ('-' :: natToChars stat.size) ++ ('-' :: intToChars stat.mtime)

/-- The `content-range` header value of the 206 branch:
`"bytes " + begin + "-" + (end - 1) + "/" + size`. -/
def contentRangeVal (range : JSNum × JSNum) (size : Nat) : Str :=
  ("bytes ").data ++ jnumToChars range.1 ++ ('-' :: jnumToChars (jsub range.2 (some 1)))
    ++ ('/' :: natToChars size)

/-- `exports.file(request, path, contentType)`: stat the path, compute
the ETag, then: with a `range` header, serve 200 full content when an
`if-range` header is present and differs from the ETag, ignore an
unparsable range (200 full content), answer 416 when the parsed end
exceeds the size, else 206 with content-range/content-length; with no
`range` header, answer 304 when `if-none-match` equals the ETag, else
200 with `content-length = size`.  Note: the source calls
`interpretFirstRange(request.headers["range"])` without the size
argument, so the parser runs with `size = undefined` (`none`).  A
stat rejection propagates (the source attaches no error handler). -/
def file (svc : Services) (request : Request) (path : Str) (contentType : Option Str) :
    Except Str Response :=
  let ct := contentType.getD (svc.mimeLookup path)
  match svc.stat path with
  | .error e => .error e
  | .ok stat =>
    let etag := etagOf stat
    let headers0 := [(("content-type").data, ct), (("etag").data, etag)]
    match lookupAssoc request.headers (("range").data) with
    | some rangeText =>
      if (match lookupAssoc request.headers (("if-range").data) with
          | some v => etag != v
          | none => false : Bool) then
        -- invalid cache: normal 200 for entire, altered content
        .ok { status := 200, headers := headers0, body := some (.openFile path none) }
      else
        match interpretFirstRange rangeText none with
        | none =>
          -- like Apache, ignore the range header if it is invalid
          .ok { status := 200, headers := headers0, body := some (.openFile path none) }
        | some range =>
          if jgtB range.2 (some (stat.size : Int)) then
            .ok (responseForStatus 416 none)
          else
            .ok { status := 206,
                  headers := headers0
                    ++ [(("content-range").data, contentRangeVal range stat.size),
                        (("content-length").data, jnumToChars (jsub range.2 range.1))],
                  body := some (.openFile path (some range)) }
    | none =>
      if lookupAssoc request.headers (("if-none-match").data) = some etag then
        .ok (responseForStatus 304 none)
      else
        .ok { status := 200,
              headers := headers0 ++ [(("content-length").data, natToChars stat.size)],
              body := some (.openFile path none) }

/-! ## Redirect producers and the `FileTree` router -/

/-- Drop one leading slash (`request.pathInfo.replace(/^\//, "")`). -/
def dropLeadSlash : Str → Str
  | '/' :: rest => rest
  | s => s

/-- `exports.redirect(request, location, status, tree)`: default the
status from the request's permanence flag, make the location absolute
against `request.url`, optionally resolve the unrouted remainder into
it, and produce the HTML redirect stub. -/
def redirectResponse (svc : Services) (request : Request) (location : Str)
    (status : Option Nat) (tree : Bool) : Response :=
  let st := status.getD (if request.permanent then 301 else 307)
  let loc1 := svc.resolve request.url location
  let loc2 := if tree then svc.resolve loc1 (dropLeadSlash request.pathInfo) else loc1
  { status := st,
    headers := [(("location").data, loc2), (("content-type").data, ("text/html").data)],
    body := some (.chunks [("Go to <a href=\"").data ++ loc2 ++ ("\">").data
      ++ loc2 ++ ("</a>").data]) }

/-- `exports.permanentRedirect(request, location)`: status defaults to 301. -/
def permanentRedirect (svc : Services) (request : Request) (location : Str) : Response :=
  redirectResponse svc request location (some 301) false

/-- `exports.temporaryRedirect(request, location)`: status defaults to 307. -/
def temporaryRedirect (svc : Services) (request : Request) (location : Str) : Response :=
  redirectResponse svc request location (some 307) false

/-- A handler for a resolved file or directory:
`(request, path, contentType) -> response`. -/
abbrev PathApp := Request → Str → Option Str → Except Str Response

/-- The options record of `exports.FileTree`; `none` fields take the
defaults the source assigns (`exports.notFound`, `exports.file`,
`exports.directory`). -/
structure TreeOptions where
  notFound : Option App := none
  fileHandler : Option PathApp := none
  directoryHandler : Option PathApp := none
  contentType : Option Str := none
  redirectSymbolicLinks : Bool := false
  redirect : Option (Request → Str → Response) := none
  permanent : Bool := false

/-- `exports.directory`: directory listing is unimplemented; every
call rejects. -/
def directoryApp : PathApp :=
  fun _ _ _ => .error ("directory listing not yet implemented").data

/-- `exports.FileTree(root, options)`: canonicalize the root (at
construction; a rejection there propagates), join it with the
unresolved path suffix, canonicalize the candidate (a rejection
yields `notFound`), reject candidates that escape the root
(containment check), optionally redirect when the raw candidate
differs from its canonical form, and otherwise dispatch on the stat
(a stat rejection propagates: the source's error handler is attached
only to the canonicalize step). -/
def FileTree (svc : Services) (root : Str) (opts : TreeOptions) (request : Request) :
    Except Str Response :=
  let notFound := opts.notFound.getD notFoundApp
  let fileH := opts.fileHandler.getD (file svc)
  let dirH := opts.directoryHandler.getD directoryApp
  let redirect := fun (req : Request) (loc : Str) =>
    match opts.redirect with
    | some r => r req loc
    | none =>
      if req.permanent || opts.permanent then permanentRedirect svc req loc
      else temporaryRedirect svc req loc
  match svc.canonical root with
  | .error e => .error e
  | .ok root2 =>
    let path := svc.join root2 (request.pathInfo.drop 1)
    match svc.canonical path with
    | .error _ => .ok (notFound request)
    | .ok canon =>
      if svc.contains root2 canon = false then .ok (notFound request)
      else if path ≠ canon ∧ opts.redirectSymbolicLinks then
        .ok (redirect request (svc.relativeFromFile path canon))
      else
        match svc.stat canon with
        | .error e => .error e
        | .ok st =>
          match st.kind with
          | .file => fileH request canon opts.contentType
          | .directory => dirH request canon opts.contentType
          | .other => .ok (notFound request)

/-! ## `Branch` and the URI component decoder -/

/-- Value of one hexadecimal digit character. -/
def hexVal (c : Char) : Option Nat :=
  if c.isDigit then some (c.toNat - ('0').toNat)
  else if 'a' ≤ c ∧ c ≤ 'f' then some (c.toNat - ('a').toNat + 10)
  else if 'A' ≤ c ∧ c ≤ 'F' then some (c.toNat - ('A').toNat + 10)
  else none

/-- A model of the `decodeURIComponent` builtin for the escapes this
code can see: `%XX` hex pairs below `0x80` decode to the
corresponding character, other characters stand for themselves;
malformed escapes (which make the builtin throw `URIError`) and
multi-byte UTF-8 escapes (out of scope of this model) give `none`. -/
def decodeURIComponentM : Str → Option Str
  | [] => some []
  | '%' :: c1 :: c2 :: rest =>
    (match hexVal c1, hexVal c2 with
     | some h1, some h2 =>
       let n := h1 * 16 + h2
       if n < 128 then
         match decodeURIComponentM rest with
         | some ds => some (Char.ofNat n :: ds)
         | none => none
       else none
     | _, _ => none)
  | '%' :: _ => none
  | c :: rest =>
    match decodeURIComponentM rest with
    | some ds => some (c :: ds)
    | none => none

/-- The outcome of one `Branch` routing step: the request's cursor
fields after the step, and where control goes.  `α` stands for the
sub-application found in the path map (kept abstract so outcomes are
comparable).  `uriError` models the `URIError` thrown by
`decodeURIComponent` on a malformed escape. -/
inductive BranchOutcome (α : Type) where
  | uriError
  | miss (request : Request)
  | hit (app : α) (request : Request)
deriving DecidableEq, Repr

/-- The character test delimiting the first path segment
(`path.split("/").shift()` keeps the characters before the first
slash). -/
def notSlash (c : Char) : Bool := c != '/'

/-- The dispatch attempt of `Branch` once the leading slash is
confirmed (`path` is `pathInfo` without its first character): the
first path segment — the characters before the first `"/"`, as
`path.split("/").shift()` computes it — is decoded and looked up in
`paths`; on a hit the decoded segment plus `"/"` is appended to
`scriptName` and `pathInfo` is cut past the decoded segment's length
(`path.substring(part.length)`). -/
def branchSeg {α : Type} (paths : List (Str × α)) (request : Request) (path : Str) :
    BranchOutcome α :=
  match decodeURIComponentM (path.takeWhile notSlash) with
  | none => .uriError
  | some part =>
    match lookupAssoc paths part with
    | some app =>
      .hit app { request with
        scriptName := request.scriptName ++ part ++ ['/'],
        pathInfo := path.drop part.length }
    | none => .miss request

/-- The routing step of `exports.Branch(paths, notFound)`: requests
whose `pathInfo` does not start with `"/"` miss with the request
unchanged; otherwise the dispatch attempt runs on the rest of the
path. -/
def branchStep {α : Type} (paths : List (Str × α)) (request : Request) :
    BranchOutcome α :=
  match request.pathInfo with
  | '/' :: path => branchSeg paths request path
  | _ => .miss request

/-- `exports.Branch(paths, notFound)` as an app: run the routing step
and hand the (possibly updated) request to the chosen application. -/
def Branch (paths : List (Str × App)) (notFound : App) (request : Request) :
    Except Str Response :=
  match branchStep paths request with
  | .uriError => .error ("URIError: URI malformed").data
  | .miss req => .ok (notFound req)
  | .hit app req => .ok (app req)

/-- On a slash-led `pathInfo`, the routing step runs the dispatch
attempt on the rest of the path. -/
theorem branchStep_cons_slash {α : Type} (paths : List (Str × α)) (req : Request)
    (path : Str) (hpi : req.pathInfo = '/' :: path) :
    branchStep paths req = branchSeg paths req path := by
  unfold branchStep
  rw [hpi]
  rfl

/-! ## The `Error` decorator -/

/-- A JS failure reason as the `Error` decorator inspects it:
whether the value is truthy, its (truthy) `stack` property if any,
and its string coercion. -/
structure JSFailure where
  truthy : Bool
  stack : Option Str
  text : Str

/-- The optional message `error && error.stack || error` passed to
`responseForStatus(500, ·)` after `if (!debug) error = undefined`:
nothing when debug is off or the reason is falsy; the stack when
present and truthy; otherwise the reason's string coercion. -/
def errDetail (debug : Bool) (e : JSFailure) : Option Str :=
  if debug = false then none
  else if e.truthy then some (e.stack.getD e.text)
  else none

/-- `exports.Error(app, debug)`: pass fulfilled responses through;
turn a rejection into `responseForStatus(500, ...)`, with the
failure's detail included only under `debug`. -/
def ErrorD (app : Request → Except JSFailure Response) (debug : Bool)
    (request : Request) : Except JSFailure Response :=
  match app request with
  | .ok r => .ok r
  | .error e => .ok (responseForStatus 500 (errDetail debug e))

/-! ## `FirstFound` -/

/-- `exports.FirstFound(cascade)`: try the apps in order; while more
apps remain, a 404 response advances to the next app and any other
response is returned; the last app's response is returned without
inspection.  An empty cascade is a JS `TypeError` (`none` here). -/
def FirstFound (cascade : List App) (request : Request) : Option Response :=
  match cascade with
  | [] => none
  | [a] => some (a request)
  | a :: rest =>
    let r := a request
    if r.status = 404 then FirstFound rest request else some r

/-! ## Correspondence of `interpretFirstRange` with the §4.1 reference -/

/-- With a real (integer) size, `interpretRange` computes exactly the
§4.1 denotation of the spec. -/
theorem interpretRange_eq_denote (spec : RangeSpec) (s : Nat) :
    interpretRange spec (some (s : Int)) = liftRange (specRangeDenote spec s) := by
  rcases spec with ⟨d1, d2⟩
  cases d1 <;> cases d2 <;> simp [interpretRange, specRangeDenote, liftRange, jsub]

/-- With a real size and a fully-determined accumulator, the source's
merge loop computes the §4.1 merge of the remaining specs. -/
theorem mergeFrom_eq_specMergeRest (s : Nat) (ts : List RangeSpec) (b e : Int) :
    mergeFrom (some (s : Int)) ts (some b, some e)
      = (fun p => ((some p.1 : JSNum), (some p.2 : JSNum))) (specMergeRest s ts (b, e)) := by
  induction ts generalizing b e with
  | nil => simp [mergeFrom, specMergeRest]
  | cons t ts ih =>
    simp only [mergeFrom, specMergeRest, interpretRange_eq_denote]
    cases h : specRangeDenote t s with
    | none => simp [liftRange]
    | some nxt =>
      simp only [liftRange, Option.map_some, jleB]
      by_cases hle : nxt.1 ≤ e
      · simp [hle, ih]
      · simp [hle]

/-- With a real size, `interpretFirstRange` computes exactly the
amended §4.1 reference semantics (first spec re-examined against
itself, merging only when its begin is at or before its end). -/
theorem interpretFirstRange_eq_spec_amended (text : Str) (s : Nat) :
    interpretFirstRange text (some (s : Int)) = liftRange (specFirstRangeAmended text s) := by
  cases hp : parseRangesHeader text with
  | none => simp [interpretFirstRange, specFirstRangeAmended, hp, liftRange]
  | some specs =>
    cases specs with
    | nil => simp [interpretFirstRange, specFirstRangeAmended, hp, liftRange]
    | cons t0 rest =>
      simp only [interpretFirstRange, specFirstRangeAmended, hp,
        interpretRange_eq_denote]
      cases hd : specRangeDenote t0 s with
      | none => rfl
      | some r0 =>
        rcases r0 with ⟨b0, e0⟩
        simp only [liftRange, Option.map_some]
        show some (mergeFrom _ (t0 :: rest) (some b0, some e0)) = _
        simp only [mergeFrom, interpretRange_eq_denote, hd, liftRange, Option.map_some, jleB]
        by_cases hle : b0 ≤ e0
        · simp [hle, mergeFrom_eq_specMergeRest]
        · simp [hle]

/-- C2 (counterexample): the claim's reference semantics merges the
subsequent specs of `bytes=5-2,3-8` (over size 100 the reference
yields `{begin 5, end 9}`), but the source's merge loop starts at
index 0 and, since the first spec's begin `5` is not at or before its
own end `3`, stops without merging and returns `{begin 5, end 3}` —
so `interpretFirstRange` does not equal the reference semantics. -/
theorem claim_C2_counterexample :
    interpretFirstRange (("bytes=5-2,3-8").data) (some (100 : Int))
      ≠ liftRange (specFirstRange (("bytes=5-2,3-8").data) 100) := by
  decide

/-- C2 (amended): for every header text and size,
`interpretFirstRange(headerText, size)` equals the amended reference
semantics of §4.1: an invalid header yields undefined; `a-b` denotes
`[a, b+1)`, `a-` denotes `[a, size)`, `-N` denotes `[size-N, size)`;
comma-separated specs are merged left-to-right starting from the
first spec — which the loop re-examines against itself, so no
merging happens when the first spec's begin exceeds its own end —
extending the merged end whenever the next spec's begin is at or
before the current merged end, and stopping at the first gap or at
the first invalid spec, so only the first continuous run is
returned. -/
theorem claim_C2_amended (text : Str) (s : Nat) :
    interpretFirstRange text (some (s : Int)) = liftRange (specFirstRangeAmended text s) :=
  interpretFirstRange_eq_spec_amended text s

/-- The §4.1 merge preserves the ByteRange invariant provided every
upcoming spec denotes a valid in-bounds range, the denoted ends are
nondecreasing, and the accumulated range is itself valid and below
the first upcoming end. -/
theorem specMergeRest_inv (s : Nat) (rest : List RangeSpec) (L : List (Int × Int))
    (b e : Int)
    (hmap : rest.map (fun sp => specRangeDenote sp s) = L.map some)
    (hvalid : ∀ p ∈ L, byteRangeInv p.1 p.2 s)
    (hchain : List.Chain' (fun p q : Int × Int => p.2 ≤ q.2) L)
    (hhead : ∀ p, L.head? = some p → e ≤ p.2)
    (hb : 0 ≤ b) (hbe : b < e) (hes : e ≤ (s : Int)) :
    byteRangeInv (specMergeRest s rest (b, e)).1 (specMergeRest s rest (b, e)).2 s := by
  induction rest generalizing L b e with
  | nil => exact ⟨hb, hbe, hes⟩
  | cons t rest ih =>
    cases L with
    | nil => simp at hmap
    | cons p L =>
      simp only [List.map_cons, List.cons.injEq] at hmap
      obtain ⟨hden, hmap⟩ := hmap
      simp only [specMergeRest, hden]
      by_cases hle : p.1 ≤ e
      · simp only [hle, if_true]
        have hpv := hvalid p (List.mem_cons_self p L)
        have hcomp : e ≤ p.2 := hhead p rfl
        refine ih L b p.2 hmap (fun q hq => hvalid q (List.mem_cons_of_mem p hq))
          hchain.tail ?_ hb (lt_of_lt_of_le hbe hcomp) hpv.2.2
        intro q hq
        cases L with
        | nil => simp at hq
        | cons q0 L' =>
          simp only [List.head?] at hq
          cases hq
          exact (List.chain'_cons.mp hchain).1
      · simp only [hle, if_false]
        exact ⟨hb, hbe, hes⟩

/-- C4 (counterexample): over size 10, the header `bytes=2-1` parses
to the defined result `{begin 2, end 2}`, which violates the claimed
ByteRange invariant `0 <= begin < end <= size` (no validation against
either the spec's own bounds or the size happens in
`interpretFirstRange`). -/
theorem claim_C4_counterexample :
    interpretFirstRange (("bytes=2-1").data) (some (10 : Int))
        = some (some 2, some 2)
      ∧ ¬ byteRangeInv 2 2 10 := by
  constructor
  · decide
  · decide

/-- C4 (amended): the defined results of `interpretFirstRange` satisfy
the ByteRange invariant `0 <= begin < end <= size` provided every
spec of the header denotes a range that itself satisfies the
invariant against the given size and the denoted ends are listed in
nondecreasing order (without these provisos the invariant fails:
`interpretFirstRange` performs no validation of its own). -/
theorem claim_C4_amended (text : Str) (s : Nat) (specs : List RangeSpec)
    (L : List (Int × Int))
    (hparse : parseRangesHeader text = some specs)
    (hmap : specs.map (fun sp => specRangeDenote sp s) = L.map some)
    (hvalid : ∀ p ∈ L, byteRangeInv p.1 p.2 s)
    (hchain : List.Chain' (fun p q : Int × Int => p.2 ≤ q.2) L)
    (r : JSNum × JSNum)
    (hr : interpretFirstRange text (some (s : Int)) = some r) :
    ∃ b e, r = (some b, some e) ∧ byteRangeInv b e s := by
  rw [interpretFirstRange_eq_spec_amended] at hr
  cases specs with
  | nil =>
    cases L with
    | nil => simp [specFirstRangeAmended, hparse, liftRange] at hr
    | cons _ _ => simp at hmap
  | cons t0 rest =>
    cases L with
    | nil => simp at hmap
    | cons p0 L' =>
      obtain ⟨b0, e0⟩ := p0
      simp only [List.map_cons, List.cons.injEq] at hmap
      obtain ⟨hden0, hmap⟩ := hmap
      have hp0 := hvalid (b0, e0) (List.mem_cons_self (b0, e0) L')
      have hle0 : b0 ≤ e0 := le_of_lt hp0.2.1
      simp only [specFirstRangeAmended, hparse, hden0, hle0, if_true, liftRange,
        Option.map_some, Option.some.injEq] at hr
      have hinv := specMergeRest_inv s rest L' b0 e0 hmap
        (fun q hq => hvalid q (List.mem_cons_of_mem (b0, e0) hq)) hchain.tail
        (fun q hq => ?_) hp0.1 hp0.2.1 hp0.2.2
      · have hr2 : ((some (specMergeRest s rest (b0, e0)).1 : JSNum),
            (some (specMergeRest s rest (b0, e0)).2 : JSNum)) = r := by
          simpa using hr
        exact ⟨(specMergeRest s rest (b0, e0)).1,
          (specMergeRest s rest (b0, e0)).2, hr2.symm, hinv⟩
      · cases L' with
        | nil => simp at hq
        | cons q0 L'' =>
          simp only [List.head?] at hq
          cases hq
          exact (List.chain'_cons.mp hchain).1

/-- C4 (witness): `bytes=0-4,5-9` over size 10 satisfies the amended
hypotheses and the merged result `{begin 0, end 10}` satisfies the
invariant. -/
theorem claim_C4_witness :
    ∃ b e, ((some 0, some 10) : JSNum × JSNum) = (some b, some e) ∧ byteRangeInv b e 10 :=
  claim_C4_amended (("bytes=0-4,5-9").data) 10
    [(some 0, some 4), (some 5, some 9)] [(0, 5), (5, 10)]
    (by decide) (by decide) (by decide)
    (List.chain'_cons.mpr ⟨by norm_num, List.chain'_singleton _⟩)
    ((some 0, some 10) : JSNum × JSNum) (by decide)

/-- Association lookup steps over a non-matching key. -/
theorem lookupAssoc_cons_ne {α : Type} (k : Str) (v : α) (rest : List (Str × α))
    (key : Str) (h : ¬ k = key) :
    lookupAssoc ((k, v) :: rest) key = lookupAssoc rest key := by
  simp [lookupAssoc, h]

/-- Association lookup finds a matching head key. -/
theorem lookupAssoc_cons_eq {α : Type} (k : Str) (v : α) (rest : List (Str × α)) :
    lookupAssoc ((k, v) :: rest) k = some v := by
  simp [lookupAssoc]

/-! ## Concrete fixtures for witnesses and counterexamples -/

/-- A concrete service record: every path canonicalizes to itself and
is contained in the root; every stat reports a regular 4-byte file
with inode 7 and mtime 1234 (ETag `7-4-1234`). -/
def svcFix : Services :=
  { canonical := fun p => .ok p,
    join := fun a b => a ++ '/' :: b,
    contains := fun _ _ => true,
    stat := fun _ => .ok { kind := .file, ino := 7, size := 4, mtime := 1234 },
    relativeFromFile := fun _ b => b,
    resolve := fun _ b => b,
    mimeLookup := fun _ => "text/plain".data }

/-- A concrete GET request for `/f` with no headers. -/
def baseReq : Request :=
  { method := "GET".data,
    url := "http://x/f".data,
    path := "/f".data,
    scriptName := [],
    pathInfo := "/f".data,
    headers := [],
    permanent := false }

/-! ## C3: the file responder's range branch -/

/-- C3 (code bug): a request with `range: bytes=0-` against a 4-byte
file.  The claim (and §4.1's contract, and the repository's own tests
of `interpretFirstRange`, which always pass a size) require the open
range to denote `[0, size)` and the responder to answer 206 with
`content-range: bytes 0-3/4` and `content-length: 4` — but
`exports.file` calls `interpretFirstRange(request.headers["range"])`
without a size argument, so the parsed end is `undefined`, the 416
check `range.end > stat.size` is vacuously false, and the responder
produces `content-range: bytes 0-NaN/4` and `content-length: NaN`. -/
theorem claim_C3_missing_size_bug :
    file svcFix { baseReq with headers := [("range".data, "bytes=0-".data)] }
        ("f".data) none
      = .ok { status := 206,
              headers := [("content-type".data, "text/plain".data),
                          ("etag".data, "7-4-1234".data),
                          ("content-range".data, "bytes 0-NaN/4".data),
                          ("content-length".data, "NaN".data)],
              body := some (.openFile "f".data (some (some 0, none))) } := by
  rfl

/-! ## C5: conditional full requests -/

/-- C5: with no `range` header, a request whose `if-none-match` equals
the ETag computed from the file's current stat gets the bodiless 304
(no body, no content-length, no content-type); when `if-none-match`
differs or is absent the responder answers 200 with
`content-length = size`. -/
theorem claim_C5 (svc : Services) (req : Request) (path : Str) (ct : Option Str)
    (stat : FileStat)
    (hstat : svc.stat path = .ok stat)
    (hnr : lookupAssoc req.headers ("range".data) = none) :
    (lookupAssoc req.headers ("if-none-match".data) = some (etagOf stat) →
      file svc req path ct = .ok (responseForStatus 304 none)
      ∧ (responseForStatus 304 none).status = 304
      ∧ (responseForStatus 304 none).body = none
      ∧ lookupAssoc (responseForStatus 304 none).headers ("content-length".data) = none
      ∧ lookupAssoc (responseForStatus 304 none).headers ("content-type".data) = none)
    ∧ (lookupAssoc req.headers ("if-none-match".data) ≠ some (etagOf stat) →
      ∃ r, file svc req path ct = .ok r ∧ r.status = 200
        ∧ lookupAssoc r.headers ("content-length".data) = some (natToChars stat.size)) := by
  constructor
  · intro hmatch
    refine ⟨?_, by decide, by decide, by decide, by decide⟩
    simp [file, hstat, hnr, hmatch]
  · intro hdiff
    have hfile : file svc req path ct = .ok
        { status := 200,
          headers := [("content-type".data, ct.getD (svc.mimeLookup path)),
                      ("etag".data, etagOf stat),
                      ("content-length".data, natToChars stat.size)],
          body := some (.openFile path none) } := by
      simp [file, hstat, hnr, hdiff]
    refine ⟨_, hfile, rfl, ?_⟩
    rw [lookupAssoc_cons_ne _ _ _ _ (by decide), lookupAssoc_cons_ne _ _ _ _ (by decide),
      lookupAssoc_cons_eq]

/-- C5 (witness): against the fixture file (ETag `7-4-1234`), a
request carrying `if-none-match: 7-4-1234` and no `range` header gets
exactly the bodiless 304. -/
theorem claim_C5_witness :
    file svcFix { baseReq with headers := [("if-none-match".data, "7-4-1234".data)] }
        ("f".data) none
      = .ok (responseForStatus 304 none)
    ∧ (responseForStatus 304 none).status = 304
    ∧ (responseForStatus 304 none).body = none
    ∧ lookupAssoc (responseForStatus 304 none).headers ("content-length".data) = none
    ∧ lookupAssoc (responseForStatus 304 none).headers ("content-type".data) = none :=
  (claim_C5 svcFix
      { baseReq with headers := [("if-none-match".data, "7-4-1234".data)] }
      ("f".data) none { kind := .file, ino := 7, size := 4, mtime := 1234 }
      rfl rfl).1 (by decide)

/-! ## C6: bodiless responses of the file responder -/

/-- C6 (counterexample): the claim says every 416 response of the
file responder carries no entity body and no content-length or
content-type headers, but `STATUS_WITH_NO_ENTITY_BODY` covers only
1xx/204/304, so `responseForStatus(416)` — returned for
`range: bytes=0-9` against the 4-byte fixture file — carries a
plain-text body together with both headers. -/
theorem claim_C6_counterexample :
    file svcFix { baseReq with headers := [("range".data, "bytes=0-9".data)] }
        ("f".data) none
      = .ok (responseForStatus 416 none)
    ∧ ¬ ((responseForStatus 416 none).body = none
         ∧ lookupAssoc (responseForStatus 416 none).headers ("content-length".data) = none
         ∧ lookupAssoc (responseForStatus 416 none).headers ("content-type".data) = none) := by
  constructor
  · rfl
  · decide

/-- C6 (amended): every 304 response produced by the file responder
carries no entity body (no body field and no content-length or
content-type headers), per the bodiless-status rule; 416 responses,
however, are built by `responseForStatus`, whose bodiless set is only
1xx/204/304, so they carry a `text/plain` status-line entity body
with a content-length. -/
theorem claim_C6_amended (svc : Services) (req : Request) (path : Str) (ct : Option Str)
    (stat : FileStat) (hstat : svc.stat path = .ok stat) :
    (lookupAssoc req.headers ("range".data) = none →
     lookupAssoc req.headers ("if-none-match".data) = some (etagOf stat) →
     file svc req path ct = .ok (responseForStatus 304 none)
     ∧ (responseForStatus 304 none).body = none
     ∧ lookupAssoc (responseForStatus 304 none).headers ("content-length".data) = none
     ∧ lookupAssoc (responseForStatus 304 none).headers ("content-type".data) = none)
    ∧
    (∀ rt rg,
     lookupAssoc req.headers ("range".data) = some rt →
     (match lookupAssoc req.headers ("if-range".data) with
      | some v => etagOf stat != v
      | none => false) = false →
     interpretFirstRange rt none = some rg →
     jgtB rg.2 (some (stat.size : Int)) = true →
     file svc req path ct = .ok (responseForStatus 416 none)
     ∧ (responseForStatus 416 none).body
         = some (.chunks ["Request Range Not Satisfiable\r\n".data])
     ∧ lookupAssoc (responseForStatus 416 none).headers ("content-length".data)
         = some (natToChars 31)
     ∧ lookupAssoc (responseForStatus 416 none).headers ("content-type".data)
         = some ("text/plain".data)) := by
  constructor
  · intro hnr hmatch
    refine ⟨?_, by decide, by decide, by decide⟩
    simp [file, hstat, hnr, hmatch]
  · intro rt rg hrt hifr hparse hgt
    refine ⟨?_, by decide, by decide, by decide⟩
    simp [file, hstat, hrt, hifr, hparse, hgt]

/-- C6 (witness): the fixture request `range: bytes=0-9` against the
4-byte file satisfies the amended hypotheses: the responder answers
`responseForStatus 416` with its plain-text body and headers. -/
theorem claim_C6_witness :
    file svcFix { baseReq with headers := [("range".data, "bytes=0-9".data)] }
        ("f".data) none
      = .ok (responseForStatus 416 none)
    ∧ (responseForStatus 416 none).body
        = some (.chunks ["Request Range Not Satisfiable\r\n".data])
    ∧ lookupAssoc (responseForStatus 416 none).headers ("content-length".data)
        = some (natToChars 31)
    ∧ lookupAssoc (responseForStatus 416 none).headers ("content-type".data)
        = some ("text/plain".data) :=
  (claim_C6_amended svcFix
      { baseReq with headers := [("range".data, "bytes=0-9".data)] }
      ("f".data) none { kind := .file, ino := 7, size := 4, mtime := 1234 }
      rfl).2 ("bytes=0-9".data) (some 0, some 10) rfl rfl (by decide) (by decide)

/-! ## C1: the FileTree containment check -/

/-- C1: whenever the canonicalized candidate path (the canonical root
joined with the request's `pathInfo` suffix, then canonicalized) is
not contained in the canonicalized root, `FileTree` answers with the
configured `notFound` app applied to the request — never with a
response derived from the escaped file (the redirect, stat, file and
directory branches are all behind the containment check). -/
theorem claim_C1 (svc : Services) (root : Str) (opts : TreeOptions) (req : Request)
    (root2 canon : Str)
    (hroot : svc.canonical root = .ok root2)
    (hcanon : svc.canonical (svc.join root2 (req.pathInfo.drop 1)) = .ok canon)
    (hesc : svc.contains root2 canon = false) :
    FileTree svc root opts req = .ok ((opts.notFound.getD notFoundApp) req) := by
  rw [List.drop_one] at hcanon
  simp [FileTree, hroot, hcanon, hesc]

/-- C1 (witness): with a service whose containment check rejects
everything, the fixture request gets exactly the default 404
response. -/
theorem claim_C1_witness :
    FileTree { svcFix with contains := fun _ _ => false } "/root".data {} baseReq
      = .ok (notFoundApp baseReq) :=
  claim_C1 { svcFix with contains := fun _ _ => false } "/root".data {} baseReq
    "/root".data "/root/f".data rfl rfl rfl

/-! ## C7: the FirstFound cascade -/

/-- C7: for a non-empty cascade there is an index `k` such that every
earlier app answered exactly 404, the cascade's result is the `k`-th
app's response, and either that response is not a 404 or `k` is the
last index (the last app's response is returned unexamined, so when
every app returns 404 the last 404 is the result). -/
theorem claim_C7 (cascade : List App) (req : Request) (h : cascade ≠ []) :
    ∃ k, ∃ hk : k < cascade.length,
      (∀ j, ∀ hj : j < k, (cascade.get ⟨j, lt_trans hj hk⟩ req).status = 404)
      ∧ FirstFound cascade req = some (cascade.get ⟨k, hk⟩ req)
      ∧ ((cascade.get ⟨k, hk⟩ req).status ≠ 404 ∨ k = cascade.length - 1) := by
  induction cascade with
  | nil => exact absurd rfl h
  | cons a rest ih =>
    cases rest with
    | nil =>
      refine ⟨0, by simp, ?_, rfl, Or.inr rfl⟩
      intro j hj
      exact absurd hj (Nat.not_lt_zero j)
    | cons b rest2 =>
      by_cases h404 : (a req).status = 404
      · obtain ⟨k, hk, hbefore, hres, hlast⟩ := ih (by simp)
        refine ⟨k + 1, by simpa using Nat.succ_lt_succ hk, ?_, ?_, ?_⟩
        · intro j hj
          cases j with
          | zero => exact h404
          | succ j2 => exact hbefore j2 (Nat.lt_of_succ_lt_succ hj)
        · show FirstFound (a :: b :: rest2) req = _
          simp only [FirstFound, h404, if_true]
          exact hres
        · rcases hlast with hne | hlen
          · exact Or.inl hne
          · exact Or.inr (by simp [hlen])
      · refine ⟨0, by simp, ?_, ?_, Or.inl h404⟩
        · intro j hj
          exact absurd hj (Nat.not_lt_zero j)
        · show FirstFound (a :: b :: rest2) req = _
          simp only [FirstFound, h404, if_false]
          rfl

/-- An app answering 404 to every request. -/
def app404 : App := fun _ => { status := 404, headers := [], body := none }

/-- An app answering 200 to every request. -/
def app200 : App := fun _ => { status := 200, headers := [], body := none }

/-- C7 (witness): in the cascade `[app404, app200]` the first app's
404 advances to the second, whose 200 response is returned; the
cascade satisfies the general characterization. -/
theorem claim_C7_witness :
    FirstFound [app404, app200] baseReq = some (app200 baseReq)
    ∧ ∃ k, ∃ hk : k < ([app404, app200] : List App).length,
        (∀ j, ∀ hj : j < k,
          (([app404, app200] : List App).get ⟨j, lt_trans hj hk⟩ baseReq).status = 404)
        ∧ FirstFound [app404, app200] baseReq
            = some (([app404, app200] : List App).get ⟨k, hk⟩ baseReq)
        ∧ ((([app404, app200] : List App).get ⟨k, hk⟩ baseReq).status ≠ 404
           ∨ k = ([app404, app200] : List App).length - 1) :=
  ⟨rfl, claim_C7 [app404, app200] baseReq (by simp)⟩

/-! ## C9: the Error decorator -/

/-- C9: whenever the wrapped app fails, the `Error` decorator returns
a 500 response; with `debug` off the response is the constant
`responseForStatus 500` page — its body is the bare status line,
mentioning nothing of the failure — and only with `debug` on is the
failure's diagnostic detail (stack or string coercion) passed into
the body. -/
theorem claim_C9 (app : Request → Except JSFailure Response) (debug : Bool)
    (req : Request) (e : JSFailure) (hfail : app req = .error e) :
    ∃ r, ErrorD app debug req = .ok r ∧ r.status = 500
      ∧ (debug = false → r = responseForStatus 500 none
          ∧ r.body = some (.chunks ["Internal Server Error\r\n".data]))
      ∧ (debug = true → r = responseForStatus 500 (errDetail true e)) := by
  refine ⟨responseForStatus 500 (errDetail debug e), ?_, ?_, ?_, ?_⟩
  · simp [ErrorD, hfail]
  · cases h : errDetail debug e <;> rfl
  · intro hdbg
    subst hdbg
    exact ⟨by simp [errDetail], by simp [errDetail]; decide⟩
  · intro hdbg
    subst hdbg
    rfl

/-- An app that always fails, with a truthy reason carrying a stack. -/
def appFail : Request → Except JSFailure Response :=
  fun _ => .error { truthy := true, stack := some "stacktrace".data, text := "boom".data }

/-- C9 (witness): wrapping the always-failing app with `debug` off
yields the constant 500 page whose body is the bare status line. -/
theorem claim_C9_witness :
    ∃ r, ErrorD appFail false baseReq = .ok r ∧ r.status = 500
      ∧ (false = false → r = responseForStatus 500 none
          ∧ r.body = some (.chunks ["Internal Server Error\r\n".data]))
      ∧ (false = true → r = responseForStatus 500
          (errDetail true { truthy := true, stack := some "stacktrace".data,
                            text := "boom".data })) :=
  claim_C9 appFail false baseReq
    { truthy := true, stack := some "stacktrace".data, text := "boom".data } rfl

/-! ## C10: Branch leaves the cursor alone on the notFound path -/

/-- C10: `Branch` mutates `scriptName`/`pathInfo` only on the
successful dispatch branch: any `miss` outcome carries the request
unchanged; in particular a `pathInfo` that does not start with `"/"`,
or a decoded first segment that is not a key of the path map, misses
with the original request, and `Branch` then hands exactly that
request to `notFound`. -/
theorem claim_C10 {α : Type} (paths : List (Str × α)) (req : Request) :
    (∀ r, branchStep paths req = BranchOutcome.miss r → r = req)
    ∧ (req.pathInfo.head? ≠ some '/' → branchStep paths req = .miss req)
    ∧ (∀ rest part, req.pathInfo = '/' :: rest →
        decodeURIComponentM (rest.takeWhile notSlash) = some part →
        lookupAssoc paths part = none →
        branchStep paths req = .miss req)
    ∧ (∀ (pathsA : List (Str × App)) (nf : App),
        branchStep pathsA req = .miss req → Branch pathsA nf req = .ok (nf req)) := by
  refine ⟨?_, ?_, ?_, ?_⟩
  · intro r hr
    unfold branchStep at hr
    split at hr
    · unfold branchSeg at hr
      split at hr
      · exact absurd hr (by simp)
      · split at hr
        · exact absurd hr (by simp)
        · simpa using hr.symm
    · simpa using hr.symm
  · intro hnoslash
    unfold branchStep
    match hpi : req.pathInfo with
    | [] => rfl
    | c :: rest =>
      by_cases hc : c = '/'
      · subst hc
        exact absurd (by rw [hpi]; rfl) hnoslash
      · simp [hpi, hc]
  · intro rest part hpi hdec hmiss
    rw [branchStep_cons_slash paths req rest hpi]
    unfold branchSeg
    simp only [hdec, hmiss]
  · intro pathsA nf hmiss
    unfold Branch
    rw [hmiss]

/-- A request whose `pathInfo` does not start with a slash. -/
def reqNoSlash : Request := { baseReq with pathInfo := "foo".data }

/-- C10 (witness): with `pathInfo = "foo"` the routing step misses
and leaves the request untouched. -/
theorem claim_C10_witness :
    branchStep ([("foo".data, 1)] : List (Str × Nat)) reqNoSlash
      = BranchOutcome.miss reqNoSlash :=
  (claim_C10 ([("foo".data, 1)] : List (Str × Nat)) reqNoSlash).2.1 (by decide)

/-! ## C8: Branch dispatch and path reconstruction

The faithful dispatch (`scriptName += part + "/"`,
`pathInfo = path.substring(part.length)`) moves the separator that
preceded the consumed segment to a position after it, so the plain
concatenation `scriptName ++ pathInfo` is not string-preserved — the
counterexample below exhibits this on `/foo/bar`.  What is preserved
(for escape-free segments and a `scriptName` that is empty or ends in
a slash, as every `Branch`-produced `scriptName` does) is the
sequence of nonempty slash-separated segments, defined next. -/

/-- Accumulating splitter: cut at every `'/'`, dropping empty pieces;
`acc` holds the reversed pending piece. -/
def segsAux : List Char → List Char → List (List Char)
  | [], acc => if acc = [] then [] else [acc.reverse]
  | c :: cs, acc =>
    if c = '/' then
      if acc = [] then segsAux cs [] else acc.reverse :: segsAux cs []
    else segsAux cs (c :: acc)

/-- The nonempty slash-separated segments of a path string. -/
def segsNE (s : Str) : List Str := segsAux s []

/-- Slash-free characters accumulate without emitting a piece. -/
theorem segsAux_accumulate (seg : Str) (hseg : ∀ c ∈ seg, notSlash c = true) :
    ∀ (r acc : Str), segsAux (seg ++ r) acc = segsAux r (seg.reverse ++ acc) := by
  induction seg with
  | nil => intro r acc; simp
  | cons c seg ih =>
    intro r acc
    have hc : ¬ c = '/' := by
      have := hseg c (List.mem_cons_self c seg)
      simpa [notSlash] using this
    have hrest : ∀ d ∈ seg, notSlash d = true :=
      fun d hd => hseg d (List.mem_cons_of_mem c hd)
    show segsAux (c :: (seg ++ r)) acc = segsAux r ((c :: seg).reverse ++ acc)
    rw [segsAux, if_neg hc, ih hrest r (c :: acc)]
    simp

/-- A leading slash is skipped (empty accumulator) or flushes the
accumulator; with a remainder that is empty or slash-led, both
effects agree with feeding the accumulator onward. -/
theorem segsAux_slash_acc (acc tail : Str)
    (htail : tail = [] ∨ ∃ t, tail = '/' :: t) :
    segsAux ('/' :: tail) acc = segsAux tail acc := by
  rcases htail with h | ⟨t, h⟩ <;> subst h <;>
    by_cases hacc : acc = [] <;> simp [segsAux, hacc]

/-- Processing past a string that ends in a slash flushes the
accumulator: the remainder is segmented independently. -/
theorem segsAux_flush (S0 : Str) :
    ∀ (X acc : Str), segsAux ((S0 ++ ['/']) ++ X) acc
      = segsAux (S0 ++ ['/']) acc ++ segsAux X [] := by
  induction S0 with
  | nil =>
    intro X acc
    show segsAux ('/' :: X) acc = segsAux ['/'] acc ++ segsAux X []
    rw [segsAux, segsAux]
    by_cases hacc : acc = []
    · rw [if_pos rfl, if_pos hacc, if_pos rfl, if_pos hacc]
      simp [segsAux]
    · rw [if_pos rfl, if_neg hacc, if_pos rfl, if_neg hacc]
      simp [segsAux]
  | cons c S0 ih =>
    intro X acc
    show segsAux (c :: ((S0 ++ ['/']) ++ X)) acc
      = segsAux (c :: (S0 ++ ['/'])) acc ++ segsAux X []
    rw [segsAux, segsAux]
    by_cases hc : c = '/'
    · rw [if_pos hc, if_pos hc]
      by_cases hacc : acc = []
      · rw [if_pos hacc, if_pos hacc, ih X []]
      · rw [if_neg hacc, if_neg hacc, ih X []]
        rfl
    · rw [if_neg hc, if_neg hc, ih X (c :: acc)]

/-- Moving the separator from before a slash-free segment to after it
does not change the nonempty segments, provided what precedes is
empty or slash-terminated and what follows is empty or begins with a
slash. -/
theorem segsNE_slash_move (S seg tail : Str)
    (hS : S = [] ∨ ∃ S0, S = S0 ++ ['/'])
    (hseg : ∀ c ∈ seg, notSlash c = true)
    (htail : tail = [] ∨ ∃ t, tail = '/' :: t) :
    segsNE (S ++ seg ++ '/' :: tail) = segsNE (S ++ '/' :: (seg ++ tail)) := by
  have core : segsAux (seg ++ '/' :: tail) [] = segsAux ('/' :: (seg ++ tail)) [] := by
    rw [segsAux_accumulate seg hseg ('/' :: tail) [],
      segsAux_slash_acc (seg.reverse ++ []) tail htail]
    show segsAux tail (seg.reverse ++ []) = segsAux ('/' :: (seg ++ tail)) []
    rw [show segsAux ('/' :: (seg ++ tail)) [] = segsAux (seg ++ tail) [] from rfl,
      segsAux_accumulate seg hseg tail []]
  rcases hS with h | ⟨S0, h⟩
  · subst h
    simpa [segsNE] using core
  · subst h
    show segsAux (((S0 ++ ['/']) ++ seg) ++ '/' :: tail) [] = segsAux _ []
    rw [List.append_assoc (S0 ++ ['/']) seg ('/' :: tail),
      segsAux_flush S0 (seg ++ '/' :: tail) [],
      segsAux_flush S0 ('/' :: (seg ++ tail)) [], core]

/-- A slash-free prefix is what `takeWhile` keeps when the remainder
is empty or starts with a slash. -/
theorem takeWhile_notSlash (seg tail : Str)
    (hseg : ∀ c ∈ seg, notSlash c = true)
    (htail : tail = [] ∨ ∃ t, tail = '/' :: t) :
    (seg ++ tail).takeWhile notSlash = seg := by
  induction seg with
  | nil =>
    rcases htail with h | ⟨t, h⟩ <;> subst h
    · rfl
    · simp [List.takeWhile, notSlash]
  | cons c seg ih =>
    have hc := hseg c (List.mem_cons_self c seg)
    have := ih (fun d hd => hseg d (List.mem_cons_of_mem c hd))
    show List.takeWhile notSlash (c :: (seg ++ tail)) = c :: seg
    rw [List.takeWhile, hc]
    exact congrArg (fun l => c :: l) this

/-- Percent-free strings decode to themselves. -/
theorem decode_no_percent : ∀ (s : Str), '%' ∉ s → decodeURIComponentM s = some s
  | [], _ => rfl
  | c :: rest, h => by
    have hc : ¬ c = '%' := by
      intro he
      exact h (he ▸ List.mem_cons_self c rest)
    have hr : '%' ∉ rest := fun hm => h (List.mem_cons_of_mem c hm)
    have ih := decode_no_percent rest hr
    rw [decodeURIComponentM.eq_def]
    split
    · simp_all
    · simp_all
    · simp_all
    · rename_i c2 rest2 heq
      injection heq with h1 h2
      subst h1
      subst h2
      simp [ih]

/-- A request for `/foo/bar` at routing depth zero. -/
def reqFooBar : Request :=
  { baseReq with
    path := "/foo/bar".data,
    pathInfo := "/foo/bar".data,
    scriptName := [] }

/-- C8 (counterexample): `Branch({"foo": ...})` on `/foo/bar`
dispatches with `scriptName = "foo/"` and `pathInfo = "/bar"` — but
the concatenation `scriptName + pathInfo` is then `"foo//bar"`, not
the original `"/foo/bar"`: the dispatch step moves the separator
from before the consumed segment to after it, so the claimed exact
reconstruction fails on every dispatch. -/
theorem claim_C8_counterexample :
    branchStep ([("foo".data, 1)] : List (Str × Nat)) reqFooBar
      = .hit 1 { reqFooBar with scriptName := "foo/".data, pathInfo := "/bar".data }
    ∧ ("foo/".data ++ "/bar".data : Str) ≠ reqFooBar.scriptName ++ reqFooBar.pathInfo := by
  constructor
  · decide
  · decide


/-- C8 (amended): when `pathInfo` is `"/" ++ seg ++ tail` for a
slash-free, percent-free segment `seg` mapped by the path table (and
`tail` empty or slash-led, as the first-segment split guarantees),
`Branch` dispatches to the mapped sub-app with `scriptName` extended
by `seg ++ "/"` and `pathInfo` shrunk to `tail`.  The plain string
concatenation `scriptName ++ pathInfo` is not preserved — the step
turns `scriptName ++ "/" ++ seg ++ tail` into
`scriptName ++ seg ++ "/" ++ tail`, relocating one separator — but
the sequence of nonempty slash-separated segments of the
concatenation is preserved whenever the incoming `scriptName` is
empty or slash-terminated (as every `Branch`-produced `scriptName`
is). -/
theorem claim_C8_amended {α : Type} (paths : List (Str × α)) (req : Request)
    (seg tail : Str) (a : α)
    (hpi : req.pathInfo = '/' :: (seg ++ tail))
    (hseg : ∀ c ∈ seg, notSlash c = true)
    (hpct : '%' ∉ seg)
    (htail : tail = [] ∨ ∃ t, tail = '/' :: t)
    (hfind : lookupAssoc paths seg = some a) :
    branchStep paths req
      = .hit a { req with
          scriptName := req.scriptName ++ seg ++ ['/'],
          pathInfo := tail }
    ∧ ((req.scriptName = [] ∨ ∃ S0, req.scriptName = S0 ++ ['/']) →
        segsNE ((req.scriptName ++ seg ++ ['/']) ++ tail)
          = segsNE (req.scriptName ++ req.pathInfo)) := by
  constructor
  · simp only [branchStep_cons_slash paths req (seg ++ tail) hpi, branchSeg,
      takeWhile_notSlash seg tail hseg htail, decode_no_percent seg hpct, hfind,
      List.drop_left seg tail]
  · intro hS
    rw [hpi]
    have := segsNE_slash_move req.scriptName seg tail hS hseg htail
    simpa [List.append_assoc] using this

/-- C8 (witness): `Branch({"foo": 1})` on `/foo/bar` dispatches with
`scriptName = "foo/"` and `pathInfo = "/bar"`, and the nonempty
segments of the concatenation are preserved (`["foo", "bar"]` both
before and after). -/
theorem claim_C8_witness :
    branchStep ([("foo".data, 1)] : List (Str × Nat)) reqFooBar
      = .hit 1 { reqFooBar with
          scriptName := reqFooBar.scriptName ++ "foo".data ++ ['/'],
          pathInfo := "/bar".data }
    ∧ segsNE ((reqFooBar.scriptName ++ "foo".data ++ ['/']) ++ "/bar".data)
        = segsNE (reqFooBar.scriptName ++ reqFooBar.pathInfo) :=
  ⟨(claim_C8_amended ([("foo".data, 1)] : List (Str × Nat)) reqFooBar
      "foo".data "/bar".data 1 (by decide) (by decide) (by decide)
      (Or.inr ⟨"bar".data, by decide⟩) (by decide)).1,
   (claim_C8_amended ([("foo".data, 1)] : List (Str × Nat)) reqFooBar
      "foo".data "/bar".data 1 (by decide) (by decide) (by decide)
      (Or.inr ⟨"bar".data, by decide⟩) (by decide)).2 (Or.inl (by decide))⟩

end Jaque

